import Mathlib

/-!
Verification development for the ros-video-recorder repository
(scripts/recorder.py).  The definitions below are a shallow embedding of
the Python source: VideoFrames.get_latest, the per-binding drawing step of
VideoRecorder.start_record, the numpy slice assignment it performs, the
post-tick wait loop, and the lifecycle flags driven by record_spin,
start_record, start_srv_cb, stop_srv_cb and terminate.  Wall-clock times
(Python floats) are modelled as rationals; images as height, width and a
pixel map with three colour channels; Python exceptions as Except values.
-/

namespace RosVideoRecorder

/-- Wall-clock seconds, as returned by time.time; modelled as rationals. -/
abbrev Time := ℚ

/-- Frame list of a VideoFrames buffer: (timestamp, payload) pairs, newest at
the tail, built by callback_image appending (time.time(), cv_image). -/
abbrev Frames (α : Type) := List (Time × α)

/-- Timestamps along the buffer are non-decreasing: frames are appended with
the current wall clock, so this holds for every reachable buffer state. -/
def tsSorted {α : Type} (l : Frames α) : Prop :=
  l.Pairwise (fun a b => a.1 ≤ b.1)

instance {α : Type} (l : Frames α) : Decidable (tsSorted l) := by
  unfold tsSorted; infer_instance

/-- VideoFrames.get_latest: filter the entries with timestamp at most
at_time; if there are none, return None and leave the list untouched;
otherwise return the payload of the last such entry and, when remove_older
is true, replace the list by its suffix that starts at that entry
(frames[len(fs) - 1:]).  The function is total: the Python method never
raises. -/
def get_latest {α : Type} (frames : Frames α) (at_time : Time)
    (remove_older : Bool := true) : Option α × Frames α :=
  match (frames.filter (fun x => decide (x.1 ≤ at_time))).getLast? with
  | none => (none, frames)
  | some f =>
    (some f.2,
      if remove_older then
        frames.drop ((frames.filter (fun x => decide (x.1 ≤ at_time))).length - 1)
      else frames)

/-- Exceptions that the modelled Python code can raise. -/
inductive PyErr
  | attributeError
  | valueError
deriving DecidableEq

/-- An image array: height, width, and a pixel map (row, column, channel).
The channel count is fixed at three (bgr8); byte values are modelled as
naturals. -/
structure Image where
  height : ℕ
  width : ℕ
  pix : ℕ → ℕ → Fin 3 → ℕ

/-- numpy-style shape of a three-channel image: (rows, cols, channels). -/
def Image.shape (img : Image) : ℕ × ℕ × ℕ := (img.height, img.width, 3)

/-- np.zeros((h, w, 3), np.uint8): the all-black canvas allocated afresh at
the top of every tick of start_record. -/
def zeroCanvas (h w : ℕ) : Image := ⟨h, w, fun _ _ _ => 0⟩

/-- cv2.resize(f, (tw, th)): the result has shape (th, tw, 3).  The
interpolation rule is an implementation choice; nearest-neighbour sampling
is used here (none of the claims depend on the interpolation). -/
def resize (f : Image) (tw th : ℕ) : Image :=
  ⟨th, tw, fun y x ch => f.pix (y * f.height / th) (x * f.width / tw) ch⟩

/-- Length of the numpy slice a[i:j] along an axis of size n (both bounds
are clamped to n). -/
def sliceLen (n i j : ℕ) : ℕ := min j n - min i n

/-- Pixel (row y, column x) lies in the rectangle of top row ty, left
column tx, height th and width tw. -/
def inRegion (ty tx th tw y x : ℕ) : Prop :=
  ty ≤ y ∧ y < ty + th ∧ tx ≤ x ∧ x < tx + tw

instance (ty tx th tw y x : ℕ) : Decidable (inRegion ty tx th tw y x) := by
  unfold inRegion; infer_instance

/-- The canvas after overwriting the rectangle at (ty, tx) of height th and
width tw with the pixels of src; every pixel outside the rectangle keeps
its previous value. -/
def writeRect (c : Image) (ty tx th tw : ℕ) (src : Image) : Image :=
  ⟨c.height, c.width, fun y x ch =>
    if inRegion ty tx th tw y x then src.pix (y - ty) (x - tx) ch
    else c.pix y x ch⟩

/-- canvas[ty:ty+th, tx:tx+tw] = src: the assignment succeeds when the slice
shape equals the source shape, and raises ValueError on a mismatch.
(numpy size-one broadcasting cannot arise from resize output with the
configured region sizes and is not modelled.) -/
def sliceAssign (c : Image) (ty tx th tw : ℕ) (src : Image) :
    Except PyErr Image :=
  if sliceLen c.height ty (ty + th) = src.height ∧
      sliceLen c.width tx (tx + tw) = src.width then
    Except.ok (writeRect c ty tx th tw src)
  else Except.error PyErr.valueError

/-- Region fields of a VideoFrames subscription: the target rectangle on the
output canvas. -/
structure Binding where
  target_x : ℕ
  target_y : ℕ
  target_w : ℕ
  target_h : ℕ
deriving DecidableEq

/-- Pixel (row y, column x) lies in the rectangle a binding draws into. -/
def inRect (b : Binding) (y x : ℕ) : Prop :=
  inRegion b.target_y b.target_x b.target_h b.target_w y x

instance (b : Binding) (y x : ℕ) : Decidable (inRect b y x) := by
  unfold inRect; infer_instance

/-- The configuration invariant on a region: it lies within a canvas of the
given height and width. -/
def inBounds (h w : ℕ) (b : Binding) : Prop :=
  b.target_y + b.target_h ≤ h ∧ b.target_x + b.target_w ≤ w

instance (h w : ℕ) (b : Binding) : Decidable (inBounds h w b) := by
  unfold inBounds; infer_instance

/-- One iteration of the per-binding loop body in start_record: when
get_latest returned None the binding is skipped (continue), otherwise the
frame is resized to the target rectangle and slice-assigned into the
canvas.  The item carries the get_latest result for this tick. -/
def drawBinding (c : Image) (item : Binding × Option Image) :
    Except PyErr Image :=
  match item.2 with
  | none => Except.ok c
  | some f =>
    sliceAssign c item.1.target_y item.1.target_x item.1.target_h
      item.1.target_w (resize f item.1.target_w item.1.target_h)

/-- One tick of composition in start_record: allocate the zero canvas, then
run the for-loop over the frame wrappers, each paired with the frame its
get_latest call produced at this tick. -/
def composeTick (h w : ℕ) (items : List (Binding × Option Image)) :
    Except PyErr Image :=
  items.foldlM drawBinding (zeroCanvas h w)

/-- The post-tick wait loop of start_record: while curr + interval exceeds
the wall clock, call rospy.sleep(interval).  Sleep is modelled as advancing
the wall clock by exactly the requested duration, and fuel bounds the
iteration count; the claims proved about the loop hold for every fuel.
Returns the number of sleep calls performed. -/
def waitLoop (curr interval : Time) : Time → ℕ → ℕ
  | _, 0 => 0
  | now, fuel + 1 =>
    if curr + interval > now then waitLoop curr interval (now + interval) fuel + 1
    else 0

/-- n iterations of the start_record tick loop: every iteration composes
exactly one canvas and then advances curr_time by exactly one interval
(curr_time += self.interval).  Returns the final curr_time together with
the canvases written, one per tick; items gives the get_latest results of
each remaining tick. -/
def runTicks (interval : Time) (h w : ℕ)
    (items : ℕ → List (Binding × Option Image)) :
    Time → ℕ → Time × List (Except PyErr Image)
  | curr, 0 => (curr, [])
  | curr, n + 1 =>
    ((runTicks interval h w items (curr + interval) n).1,
      composeTick h w (items n) ::
        (runTicks interval h w items (curr + interval) n).2)

/-- Control position of the record_spin / start_record driver: waiting is
the r.sleep loop of record_spin, recording is the tick loop of
start_record. -/
inductive Phase
  | waiting
  | recording
deriving DecidableEq

/-- Lifecycle state of a VideoRecorder: the mutable fields the session
logic reads and writes, plus the control phase.  output_file is an Option
because in Python the attribute only exists once record_spin assigns it
(which happens only when output_path is non-empty). -/
structure RecState where
  record_flag : Bool
  start_time : Time
  end_time : Time
  output_path : String
  output_file : Option String
  phase : Phase
deriving DecidableEq

/-- VideoRecorder.terminate: logs a message built from self.output_file
(an AttributeError when that attribute was never assigned), then sets
end_time to the current wall clock and clears record_flag. -/
def terminate (s : RecState) (now : Time) : Except PyErr RecState :=
  match s.output_file with
  | none => Except.error PyErr.attributeError
  | some _ => Except.ok { s with end_time := now, record_flag := false }

/-- VideoRecorder.start_srv_cb: a logged no-op when already recording,
otherwise sets record_flag; always returns an empty (success) response. -/
def start_srv_cb (s : RecState) : RecState :=
  if s.record_flag then s else { s with record_flag := true }

/-- VideoRecorder.stop_srv_cb: calls terminate when record_flag is set,
otherwise a logged no-op. -/
def stop_srv_cb (s : RecState) (now : Time) : Except PyErr RecState :=
  if s.record_flag then terminate s now else Except.ok s

/-- One observable step of the record_spin / start_record driver.  In the
waiting phase, record_spin leaves its r.sleep loop once record_flag is
set, resolves the output file name when output_path is non-empty, and
enters start_record (which sets start_time to now and end_time to -1).
In the recording phase, the tick loop keeps running while
(end_time < 0 or curr_time <= end_time) and record_flag holds; when the
condition fails, start_record returns and record_spin calls itself again,
so the driver is back in the waiting phase.  (The timestamp substitution
in the file name is not modelled; no claim depends on it.) -/
def spinStep (s : RecState) (now : Time) : RecState :=
  match s.phase with
  | Phase.waiting =>
    if s.record_flag then
      { s with phase := Phase.recording,
               output_file := if s.output_path = "" then s.output_file
                              else some s.output_path,
               start_time := now, end_time := -1 }
    else s
  | Phase.recording =>
    if (s.end_time < 0 ∨ now ≤ s.end_time) ∧ s.record_flag then s
    else { s with phase := Phase.waiting }

/-- External events of the session: a start service call, a stop service
call (carrying the wall clock at which terminate would stamp end_time),
and one driver step observed at a given wall clock. -/
inductive Ev
  | startReq
  | stopReq (now : Time)
  | spin (now : Time)

/-- Apply one event to the recorder state. -/
def step (s : RecState) (e : Ev) : Except PyErr RecState :=
  match e with
  | Ev.startReq => Except.ok (start_srv_cb s)
  | Ev.stopReq now => stop_srv_cb s now
  | Ev.spin now => Except.ok (spinStep s now)

/-- Run a sequence of events from a state; an uncaught Python exception
aborts the run. -/
def run (s : RecState) (es : List Ev) : Except PyErr RecState :=
  es.foldlM step s

/-- Recorder state right after construction with the default parameters:
output_path is the empty string and initial_start is true, so record_flag
is already set while output_file was never assigned. -/
def initNoPathRecording : RecState :=
  { record_flag := true, start_time := -1, end_time := -1, output_path := "",
    output_file := none, phase := Phase.waiting }

/-- Recorder state right after construction with an output path configured
and initial_start false (the idle initial state). -/
def initIdleWithPath : RecState :=
  { record_flag := false, start_time := -1, end_time := -1,
    output_path := "out.avi", output_file := none, phase := Phase.waiting }

/-- Event sequence: start request, driver begins recording, stop request,
driver observes the stop and returns to waiting. -/
def stopEvents : List Ev :=
  [Ev.startReq, Ev.spin 0, Ev.stopReq 1, Ev.spin 2]

/-- stopEvents followed by a second start request and a further driver
step. -/
def cycleEvents : List Ev :=
  stopEvents ++ [Ev.startReq, Ev.spin 3]

/-- Concrete two-frame buffer used by witnesses and counterexamples. -/
def l0 : Frames ℕ := [(1, 10), (2, 20)]

/-- Concrete binding drawing into the top-left 2 by 2 square. -/
def b0 : Binding := ⟨0, 0, 2, 2⟩

/-- Concrete constant test image. -/
def img7 : Image := ⟨2, 2, fun _ _ _ => 7⟩

/-! Helper lemmas about get_latest on timestamp-sorted buffers. -/

theorem mem_of_getLast_eq {α : Type} :
    ∀ {l : List α} {a : α}, l.getLast? = some a → a ∈ l
  | [], _, h => by simp at h
  | [x], a, h => by
    simp [List.getLast?] at h
    simp [h]
  | x :: y :: l, a, h => by
    rw [List.getLast?_cons_cons] at h
    exact List.mem_cons_of_mem x (mem_of_getLast_eq h)

theorem getLast_ts_ge {α : Type} :
    ∀ {l : Frames α}, tsSorted l → ∀ {f}, l.getLast? = some f →
      ∀ g ∈ l, g.1 ≤ f.1
  | [], _, f, hf => by simp at hf
  | [x], _, f, hf => by
    simp [List.getLast?] at hf
    intro g hg
    rw [List.mem_singleton] at hg
    rw [hg, hf]
  | x :: y :: l, h, f, hf => by
    rw [List.getLast?_cons_cons] at hf
    rw [tsSorted, List.pairwise_cons] at h
    intro g hg
    rcases List.mem_cons.mp hg with hgx | hgl
    · have hfmem : f ∈ y :: l := mem_of_getLast_eq hf
      rw [hgx]
      exact h.1 f hfmem
    · exact getLast_ts_ge h.2 hf g hgl

theorem filter_eq_takeWhile_of_sorted {α : Type} (t : Time) :
    ∀ {l : Frames α}, tsSorted l →
      l.filter (fun x => decide (x.1 ≤ t)) =
        l.takeWhile (fun x => decide (x.1 ≤ t))
  | [], _ => rfl
  | a :: l, h => by
    rw [tsSorted, List.pairwise_cons] at h
    by_cases ha : a.1 ≤ t
    · rw [List.filter_cons_of_pos (by simpa using ha),
        List.takeWhile_cons_of_pos (by simpa using ha)]
      exact congrArg (a :: ·) (filter_eq_takeWhile_of_sorted t h.2)
    · rw [List.filter_cons_of_neg (by simpa using ha),
        List.takeWhile_cons_of_neg (by simpa using ha)]
      rw [List.filter_eq_nil_iff]
      intro g hg
      simp only [decide_eq_true_eq]
      intro hgt
      exact ha (le_trans (h.1 g hg) hgt)

theorem drop_pred_append {α : Type} :
    ∀ {l1 : List α} {f : α} (l2 : List α), l1.getLast? = some f →
      (l1 ++ l2).drop (l1.length - 1) = f :: l2
  | [], _, l2, h => by simp at h
  | [x], f, l2, h => by
    simp [List.getLast?] at h
    simp [h]
  | x :: y :: l1, f, l2, h => by
    rw [List.getLast?_cons_cons] at h
    have := drop_pred_append (f := f) l2 h
    simpa [List.length_cons, Nat.succ_sub_one] using this

theorem get_latest_eq_of_sorted {α : Type} {l : Frames α} {t : Time}
    {f : Time × α} (h : tsSorted l)
    (hf : (l.takeWhile (fun x => decide (x.1 ≤ t))).getLast? = some f) :
    get_latest l t true =
      (some f.2, f :: l.dropWhile (fun x => decide (x.1 ≤ t))) := by
  unfold get_latest
  rw [filter_eq_takeWhile_of_sorted t h, hf]
  simp only [if_pos rfl, Prod.mk.injEq, true_and, if_true]
  have hsplit : l = l.takeWhile (fun x => decide (x.1 ≤ t)) ++
      l.dropWhile (fun x => decide (x.1 ≤ t)) :=
    (List.takeWhile_append_dropWhile _ l).symm
  nth_rewrite 2 [hsplit]
  exact drop_pred_append _ hf

theorem get_latest_some_inv {α : Type} {l : Frames α} {t : Time} {F : α}
    (hres : (get_latest l t true).1 = some F) :
    ∃ f : Time × α,
      (l.filter (fun x => decide (x.1 ≤ t))).getLast? = some f ∧ f.2 = F := by
  unfold get_latest at hres
  rcases hlast : (l.filter (fun x => decide (x.1 ≤ t))).getLast? with _ | f
  · rw [hlast] at hres
    simp at hres
  · rw [hlast] at hres
    simp only at hres
    refine ⟨f, hlast, ?_⟩
    simpa using hres

theorem get_latest_isSome_of_mem {α : Type} (l : Frames α) (t : Time)
    (a : Time × α) (ha : a ∈ l) (hat : a.1 ≤ t) :
    ((get_latest l t true).1).isSome = true := by
  unfold get_latest
  have hmem : a ∈ l.filter (fun x => decide (x.1 ≤ t)) :=
    List.mem_filter.mpr ⟨ha, by simpa using hat⟩
  have hne : l.filter (fun x => decide (x.1 ≤ t)) ≠ [] := by
    intro hnil
    rw [hnil] at hmem
    simp at hmem
  obtain ⟨g, hg⟩ := Option.isSome_iff_exists.mp (List.getLast?_isSome.mpr hne)
  rw [hg]
  rfl

/-! Claim theorems about the FrameBuffer (VideoFrames.get_latest). -/

/-- C1: for every buffer built from Append calls with non-decreasing
timestamps and every query time t, get_latest returns a stored frame whose
timestamp is at most t and at least the timestamp of every stored frame
with timestamp at most t, or None when no stored frame has timestamp at
most t. -/
theorem get_latest_returns_max {α : Type} (l : Frames α) (t : Time)
    (h : tsSorted l) :
    ((∀ g ∈ l, ¬ g.1 ≤ t) → (get_latest l t true).1 = none) ∧
    (∀ g0 ∈ l, g0.1 ≤ t →
      ∃ f ∈ l, f.1 ≤ t ∧ (∀ g ∈ l, g.1 ≤ t → g.1 ≤ f.1) ∧
        (get_latest l t true).1 = some f.2) := by
  constructor
  · intro hnone
    unfold get_latest
    have hfil : l.filter (fun x => decide (x.1 ≤ t)) = [] := by
      rw [List.filter_eq_nil_iff]
      intro g hg
      simpa using hnone g hg
    rw [hfil]
    rfl
  · intro g0 hg0 hg0t
    have hmemfil : g0 ∈ l.filter (fun x => decide (x.1 ≤ t)) :=
      List.mem_filter.mpr ⟨hg0, by simpa using hg0t⟩
    have hne : l.filter (fun x => decide (x.1 ≤ t)) ≠ [] := by
      intro hnil
      rw [hnil] at hmemfil
      simp at hmemfil
    obtain ⟨f, hf⟩ :=
      Option.isSome_iff_exists.mp (List.getLast?_isSome.mpr hne)
    have hffil : f ∈ l.filter (fun x => decide (x.1 ≤ t)) :=
      mem_of_getLast_eq hf
    have hfl : f ∈ l := (List.mem_filter.mp hffil).1
    have hft : f.1 ≤ t := by simpa using (List.mem_filter.mp hffil).2
    have hsortfil : tsSorted (l.filter (fun x => decide (x.1 ≤ t))) :=
      List.Pairwise.sublist (List.filter_sublist l) h
    refine ⟨f, hfl, hft, ?_, ?_⟩
    · intro g hg hgt
      exact getLast_ts_ge hsortfil hf g
        (List.mem_filter.mpr ⟨hg, by simpa using hgt⟩)
    · unfold get_latest
      rw [hf]

/-- Witness for get_latest_returns_max at the concrete buffer l0 and query
time 2. -/
theorem get_latest_returns_max_witness :
    ((∀ g ∈ l0, ¬ g.1 ≤ (2 : Time)) → (get_latest l0 2 true).1 = none) ∧
    (∀ g0 ∈ l0, g0.1 ≤ (2 : Time) →
      ∃ f ∈ l0, f.1 ≤ (2 : Time) ∧
        (∀ g ∈ l0, g.1 ≤ (2 : Time) → g.1 ≤ f.1) ∧
        (get_latest l0 2 true).1 = some f.2) :=
  get_latest_returns_max l0 2 (by decide)

/-- C2 fails as stated: on the buffer l0 (frames stamped 1 and 2),
get_latest at time 1 with trimming returns the frame with payload 10 and
retains the whole buffer, and the subsequent query at time 2 with no
intervening appends returns the newer frame 20, not the frame returned
before. -/
theorem get_latest_retention_counterexample :
    (get_latest l0 1 true).1 = some 10 ∧
    (get_latest (get_latest l0 1 true).2 2 true).1 = some 20 ∧
    (get_latest (get_latest l0 1 true).2 2 true).1 ≠ some 10 := by
  decide

/-- C2 amended: after a trimming get_latest call at time t returned a
frame F, a later query at time t2 at or after t with no intervening
appends always returns some frame, never None; and it returns F itself
whenever every buffered frame had timestamp at most t (in particular
whenever the source has stalled since F arrived). -/
theorem get_latest_retention_amended {α : Type} (l : Frames α)
    (t t2 : Time) (F : α) (h : tsSorted l)
    (hres : (get_latest l t true).1 = some F) (htt : t ≤ t2) :
    ((get_latest (get_latest l t true).2 t2 true).1).isSome = true ∧
    ((∀ g ∈ l, g.1 ≤ t) →
      (get_latest (get_latest l t true).2 t2 true).1 = some F) := by
  obtain ⟨f, hf, hfF⟩ := get_latest_some_inv hres
  rw [filter_eq_takeWhile_of_sorted t h] at hf
  have heq := get_latest_eq_of_sorted h hf
  have hft : f.1 ≤ t := by
    simpa using List.mem_takeWhile_imp (mem_of_getLast_eq hf)
  have hft2 : f.1 ≤ t2 := le_trans hft htt
  constructor
  · rw [heq]
    exact get_latest_isSome_of_mem _ t2 f (List.mem_cons_self f _) hft2
  · intro hall
    have hdw : l.dropWhile (fun x => decide (x.1 ≤ t)) = [] := by
      rw [List.dropWhile_eq_nil_iff]
      intro g hg
      simpa using hall g hg
    rw [heq, hdw]
    unfold get_latest
    have hfil : ([f] : Frames α).filter (fun x => decide (x.1 ≤ t2)) = [f] := by
      rw [List.filter_cons_of_pos (by simpa using hft2)]
      rfl
    rw [hfil]
    simpa using hfF

/-- Witness for get_latest_retention_amended at the concrete buffer l0,
query times 2 and 3, and returned payload 20. -/
theorem get_latest_retention_amended_witness :
    ((get_latest (get_latest l0 2 true).2 3 true).1).isSome = true ∧
    ((∀ g ∈ l0, g.1 ≤ (2 : Time)) →
      (get_latest (get_latest l0 2 true).2 3 true).1 = some 20) :=
  get_latest_retention_amended l0 2 3 20 (by decide) (by decide) (by decide)

/-- C6: after a trimming get_latest call on a timestamp-sorted buffer
returns a frame F, the returned frame sits at the head of the retained
buffer and every retained frame has timestamp at least the timestamp of F,
so at most the one already-served frame F remains at the head. -/
theorem get_latest_trim_invariant {α : Type} (l : Frames α) (t : Time)
    (F : α) (rest : Frames α) (h : tsSorted l)
    (hres : get_latest l t true = (some F, rest)) :
    ∃ f : Time × α, rest.head? = some f ∧ f.2 = F ∧ f.1 ≤ t ∧
      ∀ g ∈ rest, f.1 ≤ g.1 := by
  have hres1 : (get_latest l t true).1 = some F := by rw [hres]
  obtain ⟨f, hf, hfF⟩ := get_latest_some_inv hres1
  rw [filter_eq_takeWhile_of_sorted t h] at hf
  have heq := get_latest_eq_of_sorted h hf
  have hrest : rest = f :: l.dropWhile (fun x => decide (x.1 ≤ t)) :=
    congrArg Prod.snd (hres.symm.trans heq)
  have hft : f.1 ≤ t := by
    simpa using List.mem_takeWhile_imp (mem_of_getLast_eq hf)
  have hl2 := h
  rw [show l = l.takeWhile (fun x => decide (x.1 ≤ t)) ++
    l.dropWhile (fun x => decide (x.1 ≤ t)) from
    (List.takeWhile_append_dropWhile _ l).symm] at hl2
  rw [tsSorted] at hl2
  obtain ⟨-, -, hcross⟩ := List.pairwise_append.mp hl2
  refine ⟨f, ?_, hfF, hft, ?_⟩
  · rw [hrest]
    rfl
  · intro g hg
    rw [hrest] at hg
    rcases List.mem_cons.mp hg with hgf | hgdw
    · rw [hgf]
    · exact hcross f (mem_of_getLast_eq hf) g hgdw

/-- Witness for get_latest_trim_invariant at the concrete buffer l0,
query time 1, returned payload 10, retained buffer l0. -/
theorem get_latest_trim_invariant_witness :
    ∃ f : Time × ℕ, l0.head? = some f ∧ f.2 = 10 ∧ f.1 ≤ (1 : Time) ∧
      ∀ g ∈ l0, f.1 ≤ g.1 :=
  get_latest_trim_invariant l0 1 10 l0 (by decide) (by decide)

/-- C9: when no stored frame has timestamp at most t, get_latest returns
None and leaves the buffer completely unchanged, for either value of
remove_older.  The Lean model is a total function, matching the fact that
the Python method cannot raise on this path. -/
theorem get_latest_none_no_side_effect {α : Type} (l : Frames α)
    (t : Time) (r : Bool) (hnone : ∀ g ∈ l, ¬ g.1 ≤ t) :
    get_latest l t r = (none, l) := by
  unfold get_latest
  have hfil : l.filter (fun x => decide (x.1 ≤ t)) = [] := by
    rw [List.filter_eq_nil_iff]
    intro g hg
    simpa using hnone g hg
  rw [hfil]
  rfl

/-- Witness for get_latest_none_no_side_effect at the concrete buffer l0
and query time 0, before either stored timestamp. -/
theorem get_latest_none_no_side_effect_witness :
    get_latest l0 0 true = (none, l0) :=
  get_latest_none_no_side_effect l0 0 true (by decide)

/-! Claim theorems about the session lifecycle. -/

/-- C3 fails on the code: with the default configuration (output_path
empty, so record_spin never assigns output_file) and recording active, a
stop service call reaches terminate, whose log line reads the missing
output_file attribute and raises AttributeError instead of returning
success.  The spec and the commented-out safe log line in terminate show
the intended behaviour; the code is the slip. -/
theorem stop_raises_attribute_error :
    run initNoPathRecording [Ev.spin 0, Ev.stopReq 1] =
      Except.error PyErr.attributeError := by
  rfl

/-- C4 fails as stated: from the idle initial state with an output path,
stopEvents drive the session through one full cycle into the Stopped
configuration (driver waiting, record_flag clear, end_time stamped at 1),
and the two further events of cycleEvents (a second start request and one
driver step) re-enter the Recording phase. -/
theorem restart_after_stop_counterexample :
    (run initIdleWithPath stopEvents).map
        (fun s => (s.phase, s.record_flag, s.end_time)) =
      Except.ok (Phase.waiting, false, 1) ∧
    (run initIdleWithPath cycleEvents).map (fun s => s.phase) =
      Except.ok Phase.recording := by
  constructor
  · rfl
  · rfl

/-- C4 amended: the lifecycle permits repeated cycles.  From any state in
which the driver is waiting with record_flag clear (the Stopped
configuration as well as the initial idle one), a start request followed
by one driver step re-enters the Recording phase. -/
theorem restart_after_stop_amended (s : RecState) (now : Time)
    (hph : s.phase = Phase.waiting) (hflag : s.record_flag = false) :
    (run s [Ev.startReq, Ev.spin now]).map (fun s2 => s2.phase) =
      Except.ok Phase.recording := by
  obtain ⟨flag, st, et, op, of, ph⟩ := s
  have hph2 : ph = Phase.waiting := hph
  have hflag2 : flag = false := hflag
  subst hph2
  subst hflag2
  rfl

/-- Witness for restart_after_stop_amended at the concrete idle initial
state. -/
theorem restart_after_stop_amended_witness :
    (run initIdleWithPath [Ev.startReq, Ev.spin 0]).map (fun s2 => s2.phase) =
      Except.ok Phase.recording :=
  restart_after_stop_amended initIdleWithPath 0 rfl rfl

/-! Claim theorem about the fixed-rate tick loop. -/

/-- C5: when the wall clock has already reached curr + interval by the end
of tick processing, the wait loop performs no sleep at all (for any fuel
bound on its iterations); and over any number of loop iterations the tick
loop composes exactly one canvas per tick and advances curr_time by
exactly one interval per iteration, never skipping a tick in canvas
count. -/
theorem tick_loop_no_catchup :
    (∀ (curr interval now : Time) (fuel : ℕ), curr + interval ≤ now →
      waitLoop curr interval now fuel = 0) ∧
    (∀ (interval : Time) (h w : ℕ)
        (items : ℕ → List (Binding × Option Image)) (curr : Time) (n : ℕ),
      (runTicks interval h w items curr n).1 = curr + n * interval ∧
      (runTicks interval h w items curr n).2.length = n) := by
  constructor
  · intro curr interval now fuel hle
    cases fuel with
    | zero => rfl
    | succ fuel => simp [waitLoop, not_lt.mpr hle]
  · intro interval h w items curr n
    induction n generalizing curr with
    | zero => simp [runTicks]
    | succ n ih =>
      obtain ⟨ih1, ih2⟩ := ih (curr + interval)
      refine ⟨?_, ?_⟩
      · show (runTicks interval h w items (curr + interval) n).1 =
          curr + (n + 1 : ℕ) * interval
        rw [ih1]
        push_cast
        ring
      · show (composeTick h w (items n) ::
            (runTicks interval h w items (curr + interval) n).2).length = n + 1
        rw [List.length_cons, ih2]

/-- Witness for tick_loop_no_catchup: an overrunning tick sleeps zero
times, and three iterations from time 0 at unit interval yield curr_time 3
and exactly three canvases. -/
theorem tick_loop_no_catchup_witness :
    waitLoop 0 1 5 7 = 0 ∧
    (runTicks 1 2 2 (fun _ => ([] : List (Binding × Option Image))) 0 3).1 =
      (0 : Time) + (3 : ℕ) * (1 : Time) ∧
    (runTicks 1 2 2 (fun _ => ([] : List (Binding × Option Image))) 0 3).2.length = 3 :=
  ⟨tick_loop_no_catchup.1 0 1 5 7 (by norm_num),
    (tick_loop_no_catchup.2 1 2 2 (fun _ => []) 0 3).1,
    (tick_loop_no_catchup.2 1 2 2 (fun _ => []) 0 3).2⟩

/-! Claim theorems about the compositor. -/

theorem writeRect_pix_out (c : Image) (ty tx th tw : ℕ) (src : Image)
    (y x : ℕ) (ch : Fin 3) (hout : ¬ inRegion ty tx th tw y x) :
    (writeRect c ty tx th tw src).pix y x ch = c.pix y x ch := by
  unfold writeRect
  exact if_neg hout

theorem sliceAssign_resize_ok (c f : Image) (ty tx th tw : ℕ)
    (hy : ty + th ≤ c.height) (hx : tx + tw ≤ c.width) :
    sliceAssign c ty tx th tw (resize f tw th) =
      Except.ok (writeRect c ty tx th tw (resize f tw th)) := by
  have hc1 : sliceLen c.height ty (ty + th) = (resize f tw th).height := by
    show min (ty + th) c.height - min ty c.height = th
    rw [min_eq_left hy, min_eq_left (le_trans (Nat.le_add_right ty th) hy)]
    omega
  have hc2 : sliceLen c.width tx (tx + tw) = (resize f tw th).width := by
    show min (tx + tw) c.width - min tx c.width = tw
    rw [min_eq_left hx, min_eq_left (le_trans (Nat.le_add_right tx tw) hx)]
    omega
  unfold sliceAssign
  rw [if_pos ⟨hc1, hc2⟩]

theorem compose_go (H W : ℕ) :
    ∀ (items : List (Binding × Option Image)) (c : Image),
      c.height = H → c.width = W →
      (∀ it ∈ items, it.2.isSome = true → inBounds H W it.1) →
      ∃ c2, List.foldlM drawBinding c items = Except.ok c2 ∧
        c2.height = H ∧ c2.width = W ∧
        ∀ y x ch, (∀ it ∈ items, it.2.isSome = true → ¬ inRect it.1 y x) →
          c2.pix y x ch = c.pix y x ch := by
  intro items
  induction items with
  | nil =>
    intro c hh hw _
    exact ⟨c, rfl, hh, hw, fun y x ch _ => rfl⟩
  | cons it rest ih =>
    intro c hh hw hin
    obtain ⟨b, fo⟩ := it
    cases fo with
    | none =>
      obtain ⟨c2, hfold, hh2, hw2, hpix⟩ :=
        ih c hh hw (fun it2 h2 => hin it2 (List.mem_cons_of_mem _ h2))
      refine ⟨c2, ?_, hh2, hw2, ?_⟩
      · rw [List.foldlM_cons]
        simpa [drawBinding] using hfold
      · intro y x ch hout
        exact hpix y x ch (fun it2 h2 hs => hout it2 (List.mem_cons_of_mem _ h2) hs)
    | some f =>
      have hb : inBounds H W b := hin (b, some f) (List.mem_cons_self _ _) rfl
      have hdraw : drawBinding c (b, some f) =
          Except.ok (writeRect c b.target_y b.target_x b.target_h b.target_w
            (resize f b.target_w b.target_h)) := by
        unfold drawBinding
        exact sliceAssign_resize_ok c f _ _ _ _ (by rw [hh]; exact hb.1)
          (by rw [hw]; exact hb.2)
      obtain ⟨c2, hfold, hh2, hw2, hpix⟩ :=
        ih (writeRect c b.target_y b.target_x b.target_h b.target_w
            (resize f b.target_w b.target_h)) hh hw
          (fun it2 h2 => hin it2 (List.mem_cons_of_mem _ h2))
      refine ⟨c2, ?_, hh2, hw2, ?_⟩
      · rw [List.foldlM_cons, hdraw]
        simpa using hfold
      · intro y x ch hout
        have hnotb : ¬ inRect b y x :=
          hout (b, some f) (List.mem_cons_self _ _) rfl
        have h2 := hpix y x ch
          (fun it2 h2 hs => hout it2 (List.mem_cons_of_mem _ h2) hs)
        rw [h2]
        exact writeRect_pix_out c _ _ _ _ _ y x ch hnotb

/-- C7: for every pair of configured canvas dimensions and every per-tick
frame availability whose drawn regions respect the configuration
invariant, the tick composition succeeds and yields a canvas of exactly
the configured height and width with three channels, and every pixel not
covered by a drawn region holds the zero value of the freshly allocated
canvas: composition starts from zeroCanvas every tick, so no content can
persist from a previous tick. -/
theorem compose_canvas_shape (H W : ℕ)
    (items : List (Binding × Option Image))
    (hin : ∀ it ∈ items, it.2.isSome = true → inBounds H W it.1) :
    ∃ c, composeTick H W items = Except.ok c ∧
      c.shape = (H, W, 3) ∧
      ∀ y x ch, (∀ it ∈ items, it.2.isSome = true → ¬ inRect it.1 y x) →
        c.pix y x ch = 0 := by
  obtain ⟨c2, hfold, hh2, hw2, hpix⟩ :=
    compose_go H W items (zeroCanvas H W) rfl rfl hin
  exact ⟨c2, hfold, by simp [Image.shape, hh2, hw2],
    fun y x ch hout => hpix y x ch hout⟩

/-- Witness for compose_canvas_shape on a 4 by 4 canvas with one binding
that has a frame available. -/
theorem compose_canvas_shape_witness :
    ∃ c, composeTick 4 4 [(b0, some img7)] = Except.ok c ∧
      c.shape = (4, 4, 3) ∧
      ∀ y x ch,
        (∀ it ∈ [(b0, some img7)], it.2.isSome = true → ¬ inRect it.1 y x) →
        c.pix y x ch = 0 :=
  compose_canvas_shape 4 4 [(b0, some img7)]
    (by
      intro it hit _
      rw [List.mem_singleton] at hit
      subst hit
      decide)

/-- C8: the three facets of the missing-frame policy.  First, a binding
whose buffer yields no frame leaves the whole canvas unchanged (the loop
body is a continue, not an error).  Second, drawing a binding that does
have a frame changes no pixel outside its rectangle.  Third, in a full
tick composition, any pixel of the rectangle of a frameless binding that
no frame-bearing binding overlaps still holds the zero background
value. -/
theorem missing_frame_policy :
    (∀ (c : Image) (b : Binding), drawBinding c (b, none) = Except.ok c) ∧
    (∀ (c c2 : Image) (b : Binding) (f : Image),
      drawBinding c (b, some f) = Except.ok c2 →
      ∀ y x ch, ¬ inRect b y x → c2.pix y x ch = c.pix y x ch) ∧
    (∀ (H W : ℕ) (items : List (Binding × Option Image)) (b : Binding),
      (∀ it ∈ items, it.2.isSome = true → inBounds H W it.1) →
      (b, (none : Option Image)) ∈ items →
      ∃ c, composeTick H W items = Except.ok c ∧
        ∀ y x ch, inRect b y x →
          (∀ it ∈ items, it.2.isSome = true → ¬ inRect it.1 y x) →
          c.pix y x ch = 0) := by
  refine ⟨fun c b => rfl, ?_, ?_⟩
  · intro c c2 b f hdr y x ch hout
    have hdr2 : sliceAssign c b.target_y b.target_x b.target_h b.target_w
        (resize f b.target_w b.target_h) = Except.ok c2 := hdr
    unfold sliceAssign at hdr2
    split at hdr2
    · rw [← Except.ok.inj hdr2]
      exact writeRect_pix_out c _ _ _ _ _ y x ch hout
    · exact absurd hdr2 (by simp)
  · intro H W items b hin _hmem
    obtain ⟨c2, hfold, _, _, hpix⟩ :=
      compose_go H W items (zeroCanvas H W) rfl rfl hin
    exact ⟨c2, hfold, fun y x ch _ hout => hpix y x ch hout⟩

/-- Witness for missing_frame_policy: the frameless binding b0 leaves a
4 by 4 canvas untouched; drawing b0 with the frame img7 does not change
the pixel outside its rectangle; and composing the single frameless
binding b0 leaves its rectangle at zero. -/
theorem missing_frame_policy_witness :
    drawBinding (zeroCanvas 4 4) (b0, none) = Except.ok (zeroCanvas 4 4) ∧
    (∀ y x ch, ¬ inRect b0 y x →
      (writeRect (zeroCanvas 4 4) 0 0 2 2 (resize img7 2 2)).pix y x ch =
        (zeroCanvas 4 4).pix y x ch) ∧
    (∃ c, composeTick 4 4 [(b0, (none : Option Image))] = Except.ok c ∧
      ∀ y x ch, inRect b0 y x →
        (∀ it ∈ [(b0, (none : Option Image))], it.2.isSome = true →
          ¬ inRect it.1 y x) →
        c.pix y x ch = 0) :=
  ⟨missing_frame_policy.1 (zeroCanvas 4 4) b0,
    missing_frame_policy.2.1 (zeroCanvas 4 4)
      (writeRect (zeroCanvas 4 4) 0 0 2 2 (resize img7 2 2)) b0 img7 (by rfl),
    missing_frame_policy.2.2 4 4 [(b0, none)] b0 (by simp)
      (List.mem_singleton.mpr rfl)⟩

/-- C10: for a region with positive width and height that lies within the
canvas (x + width at most the canvas width, y + height at most the canvas
height), the resized frame has exactly the shape of the target
sub-rectangle and the per-tick slice assignment succeeds: the ValueError
branch of the assignment is unreachable under this precondition. -/
theorem slice_assignment_in_bounds (c f : Image) (ty tx th tw : ℕ)
    ( _hw0 : 0 < tw) ( _hh0 : 0 < th) (hx : tx + tw ≤ c.width)
    (hy : ty + th ≤ c.height) :
    sliceAssign c ty tx th tw (resize f tw th) =
      Except.ok (writeRect c ty tx th tw (resize f tw th)) ∧
    (resize f tw th).shape = (th, tw, 3) :=
  ⟨sliceAssign_resize_ok c f ty tx th tw hy hx, rfl⟩

/-- Witness for slice_assignment_in_bounds: a 2 by 2 region at (1, 1)
inside a 4 by 4 canvas. -/
theorem slice_assignment_in_bounds_witness :
    sliceAssign (zeroCanvas 4 4) 1 1 2 2 (resize img7 2 2) =
      Except.ok (writeRect (zeroCanvas 4 4) 1 1 2 2 (resize img7 2 2)) ∧
    (resize img7 2 2).shape = (2, 2, 3) :=
  slice_assignment_in_bounds (zeroCanvas 4 4) img7 1 1 2 2 (by decide)
    (by decide) (by decide) (by decide)

end RosVideoRecorder
